import Mathlib

/-!
Verification of the order matching engine (`main.go`).

The engine keeps two binary heaps of orders — a max-heap on price for buys
(`BuyHeap`) and a min-heap on price for sells (`SellHeap`) — driven by Go's
`container/heap` algorithms (`up` / `down` sift routines).  A matching sweep
(`MatchOrders`) repeatedly pops the best order of each side, crosses them when
`bestBuy.Price >= bestSell.Price`, decrements both residuals by the traded
minimum, re-inserts the side that still has positive residual, and stops on the
first non-crossing pair or when either book empties.

Prices are modelled as rationals (the Go code only ever compares prices, never
computes with them), amounts and ids as integers, order types as strings.
Mutation is modelled by explicit state passing; the popped order of Go's
pointer-based `Pop` is returned by value together with the shrunken backing
array.
-/

namespace MatchEngine

/-- The `Order` record from `main.go`: identifier, side string, limit price, residual
amount and the back-pointer `Index` into the heap's backing array. -/
structure Order where
  ID : Int
  typ : String
  Price : ℚ
  Amount : Int
  Index : Int
  deriving Repr, DecidableEq

instance : Inhabited Order := ⟨⟨0, "", 0, 0, 0⟩⟩

/-- The `Buy` order-type constant, `"BUY"`. -/
def Buy : String := "BUY"

/-- The `Sell` order-type constant, `"SELL"`. -/
def Sell : String := "SELL"

/-- Element of the backing array at position `i` (Go `h[i]`). -/
def getAt (l : List Order) (i : Nat) : Order := l.getD i default

/-- Price of the element at position `i`. -/
def prAt (l : List Order) (i : Nat) : ℚ := (getAt l i).Price

/-- Comparator `BuyHeap.Less`: `h[i].Price > h[j].Price` — max-heap on price. -/
def buyPlt (p q : ℚ) : Bool := decide (p > q)

/-- Comparator `SellHeap.Less`: `h[i].Price < h[j].Price` — min-heap on price. -/
def sellPlt (p q : ℚ) : Bool := decide (p < q)

/-- The `Swap` method of both heaps: exchange positions `i` and `j` and write the new
positions into the two `Index` fields. -/
def swapIdx (l : List Order) (i j : Nat) : List Order :=
  let a := getAt l i
  let b := getAt l j
  (l.set i { b with Index := Int.ofNat i }).set j { a with Index := Int.ofNat j }

/-- Loop body of `container/heap.up`, driven by a structural fuel counter.
The sifted position strictly decreases (`(j-1)/2 < j` for `j > 0`), so fuel
`j` makes the zero-fuel branch unreachable. -/
def upFuel (plt : ℚ → ℚ → Bool) : Nat → List Order → Nat → List Order
  | 0, l, _ => l
  | fuel + 1, l, j =>
    if j = 0 then l
    else
      if plt (prAt l j) (prAt l ((j - 1) / 2)) then
        upFuel plt fuel (swapIdx l ((j - 1) / 2) j) ((j - 1) / 2)
      else l

/-- Go `container/heap.up`: sift position `j` towards the root while it is `Less`
than its parent `(j-1)/2`.  (Go stops when `i == j`, which happens exactly at
`j = 0`.) -/
def up (plt : ℚ → ℚ → Bool) (l : List Order) (j : Nat) : List Order :=
  upFuel plt j l j

/-- Loop body of `container/heap.down`, driven by a structural fuel counter.
The hole index strictly increases while it stays below `n`, so fuel `n` makes
the zero-fuel branch unreachable.  Go computes the chosen child `j` once; here
the two choices are written out. -/
def downFuel (plt : ℚ → ℚ → Bool) : Nat → List Order → Nat → Nat → List Order
  | 0, l, _, _ => l
  | fuel + 1, l, i, n =>
    if 2 * i + 1 < n then
      if 2 * i + 2 < n ∧ plt (prAt l (2 * i + 2)) (prAt l (2 * i + 1)) = true then
        if plt (prAt l (2 * i + 2)) (prAt l i) then
          downFuel plt fuel (swapIdx l i (2 * i + 2)) (2 * i + 2) n
        else l
      else
        if plt (prAt l (2 * i + 1)) (prAt l i) then
          downFuel plt fuel (swapIdx l i (2 * i + 1)) (2 * i + 1) n
        else l
    else l

/-- Go `container/heap.down`: sift position `i` down within the prefix of length
`n`, descending to the `Less`-smaller of the two children. -/
def down (plt : ℚ → ℚ → Bool) (l : List Order) (i n : Nat) : List Order :=
  downFuel plt n l i n

/-- Go `heap.Push` composed with the heaps' `Push` methods: append the order with
`Index` set to the old length, then sift it up from the last position. -/
def heapPush (plt : ℚ → ℚ → Bool) (l : List Order) (o : Order) : List Order :=
  let l2 := l ++ [{ o with Index := Int.ofNat l.length }]
  up plt l2 (l2.length - 1)

/-- Go `heap.Pop` composed with the heaps' `Pop` methods: swap the root with the
last element, sift the new root down within the shortened prefix, then remove
the last element, stamping its `Index` with the sentinel `-1`.  Callers check
`Len() > 0` first, as in the Go code. -/
def heapPop (plt : ℚ → ℚ → Bool) (l : List Order) : Order × List Order :=
  let n := l.length - 1
  let l1 := swapIdx l 0 n
  let l2 := down plt l1 0 n
  ({ getAt l2 n with Index := -1 }, l2.take n)

/-- The two books of the `MatchingEngine`. -/
structure EngineState where
  BuyOrders : List Order
  SellOrders : List Order
  deriving Repr, DecidableEq

/-- The worker insert `addOrderInternal`: orders whose `Type` equals `"BUY"` go to the buy heap,
every other order goes to the sell heap.  No validation is performed. -/
def addOrderInternal (st : EngineState) (o : Order) : EngineState :=
  if o.typ = Buy then { st with BuyOrders := heapPush buyPlt st.BuyOrders o }
  else { st with SellOrders := heapPush sellPlt st.SellOrders o }

/-- Submission `AddOrder`: hands the order to the ingress channel (`orderChannel <- order`),
modelled as appending to the queue of pending orders.  No validation is
performed before enqueueing. -/
def AddOrder (channelQueue : List Order) (o : Order) : List Order :=
  channelQueue ++ [o]

/-- The worker loop `processOrders`: the ingestion worker drains the channel in order, inserting
each received order with `addOrderInternal`. -/
def processOrders (st : EngineState) (queue : List Order) : EngineState :=
  queue.foldl addOrderInternal st

/-- A trade record as emitted by `executeTrade`'s log line:
buy id, sell id, the sell order's price, and the traded amount. -/
structure Trade where
  buyID : Int
  sellID : Int
  price : ℚ
  qty : Int
  deriving Repr, DecidableEq

/-- The routine `executeTrade`: the trade-emission routine; it reports the buy and sell
identifiers, the traded amount, and the sell order's price. -/
def executeTrade (buyOrder sellOrder : Order) (amount : Int) : Trade :=
  { buyID := buyOrder.ID, sellID := sellOrder.ID
    price := sellOrder.Price, qty := amount }

/-- The helper `min` from `main.go`. -/
def goMin (a b : Int) : Int := if a < b then a else b

/-- One iteration of the `MatchOrders` loop body.  Returns the next state, the
trade emitted by this iteration (if any), and whether the loop continues.
Mirrors `main.go` lines 206–309: pop the best buy (break if the buy book is
empty), pop the best sell (push the buy back and break if the sell book is
empty), cross if `bestBuy.Price >= bestSell.Price` — decrementing both
residuals by `min` of the amounts and re-inserting only sides with positive
residual — otherwise push both back and break; after a trade, break when
either book became empty. -/
def matchIter (st : EngineState) : EngineState × Option Trade × Bool :=
  if st.BuyOrders.length = 0 then (st, none, false)
  else
    let pb := heapPop buyPlt st.BuyOrders
    let bestBuy := pb.1
    let buys1 := pb.2
    if st.SellOrders.length = 0 then
      ({ BuyOrders := heapPush buyPlt buys1 bestBuy
         SellOrders := st.SellOrders }, none, false)
    else
      let ps := heapPop sellPlt st.SellOrders
      let bestSell := ps.1
      let sells1 := ps.2
      if bestBuy.Price ≥ bestSell.Price then
        let tradeAmount := goMin bestBuy.Amount bestSell.Amount
        let bb := { bestBuy with Amount := bestBuy.Amount - tradeAmount }
        let bs := { bestSell with Amount := bestSell.Amount - tradeAmount }
        let buys2 := if 0 < bb.Amount then heapPush buyPlt buys1 bb else buys1
        let sells2 := if 0 < bs.Amount then heapPush sellPlt sells1 bs else sells1
        ({ BuyOrders := buys2, SellOrders := sells2 },
         some (executeTrade bestBuy bestSell tradeAmount),
         !(buys2.length == 0 || sells2.length == 0))
      else
        ({ BuyOrders := heapPush buyPlt buys1 bestBuy
           SellOrders := heapPush sellPlt sells1 bestSell }, none, false)

/-- The `MatchOrders` loop with explicit fuel: `none` exactly when the fuel ran
out before the loop broke; otherwise the final state together with the list of
trades emitted, in order. -/
def matchLoop : Nat → EngineState → Option (EngineState × List Trade)
  | 0, _ => none
  | fuel + 1, st =>
    match matchIter st with
    | (st2, t, false) => some (st2, t.toList)
    | (st2, t, true) =>
      match matchLoop fuel st2 with
      | none => none
      | some (st3, ts) => some (st3, t.toList ++ ts)

/-- A full matching sweep: the loop runs with fuel one more than the number of
resident orders, which (as proved below) always suffices. -/
def MatchOrders (st : EngineState) : Option (EngineState × List Trade) :=
  matchLoop (st.BuyOrders.length + st.SellOrders.length + 1) st

/-- Query `GetHighestBuyOrder`: under the buy lock, if the buy book is non-empty
return a by-value clone of the root; otherwise `nil`.  The state is returned
unchanged. -/
def GetHighestBuyOrder (st : EngineState) : EngineState × Option Order :=
  if 0 < st.BuyOrders.length then (st, some (getAt st.BuyOrders 0))
  else (st, none)

/-- Query `GetHighestSellOrder`: symmetric to `GetHighestBuyOrder`. -/
def GetHighestSellOrder (st : EngineState) : EngineState × Option Order :=
  if 0 < st.SellOrders.length then (st, some (getAt st.SellOrders 0))
  else (st, none)

/-! ## Invariant definitions -/

/-- The logical content of an order: everything except the bookkeeping
`Index` field. -/
def strip (o : Order) : Order := { o with Index := 0 }

/-- The multiset of logical orders held in a backing array. -/
def logicalMS (l : List Order) : Multiset Order := (l.map strip : List Order)

/-- The `container/heap` invariant for comparator `plt`: no element is `Less`
than its parent. -/
def heapOrdered (plt : ℚ → ℚ → Bool) (l : List Order) : Prop :=
  ∀ k, 0 < k → k < l.length → plt (prAt l k) (prAt l ((k - 1) / 2)) = false

/-- Every resident order's `Index` equals its position in the backing array. -/
def wellIndexed (l : List Order) : Prop :=
  ∀ k, k < l.length → (getAt l k).Index = Int.ofNat k

/-- Every resident order has a positive residual amount. -/
def allPos (l : List Order) : Prop := ∀ o ∈ l, 0 < o.Amount

/-- The properties of the two price comparators that the heap proofs use:
asymmetry and transitivity of the negation. -/
structure PltOK (plt : ℚ → ℚ → Bool) : Prop where
  asym : ∀ a b, plt a b = true → plt b a = false
  ntrans : ∀ a b c, plt a b = false → plt b c = false → plt a c = false

theorem buyPlt_ok : PltOK buyPlt := by
  constructor <;> intro a b <;> simp [buyPlt] <;> intros <;> linarith

theorem sellPlt_ok : PltOK sellPlt := by
  constructor <;> intro a b <;> simp [sellPlt] <;> intros <;> linarith

theorem PltOK.irrefl {plt : ℚ → ℚ → Bool} (H : PltOK plt) (a : ℚ) :
    plt a a = false := by
  cases h : plt a a
  · rfl
  · simpa [h] using H.asym a a h

/-- From `plt c i = false` and `plt j i = true` deduce `plt c j = false`. -/
theorem PltOK.step1 {plt : ℚ → ℚ → Bool} (H : PltOK plt) {c i j : ℚ}
    (h1 : plt c i = false) (h2 : plt j i = true) : plt c j = false := by
  cases h : plt c j
  · rfl
  · have h3 := H.asym _ _ h
    have h4 := H.ntrans _ _ _ h3 h1
    rw [h4] at h2
    exact h2.symm

/-- From `plt a c = false` and `plt a b = true` deduce `plt b c = false`. -/
theorem PltOK.step2 {plt : ℚ → ℚ → Bool} (H : PltOK plt) {a b c : ℚ}
    (h1 : plt a c = false) (h2 : plt a b = true) : plt b c = false := by
  cases h : plt b c
  · rfl
  · have h3 := H.asym _ _ h
    have h4 := H.ntrans _ _ _ h1 h3
    rw [h4] at h2
    exact h2.symm

/-! ## Basic facts about the backing array operations -/

theorem getAt_eq_getElem {l : List Order} {i : Nat} (h : i < l.length) :
    getAt l i = l[i] :=
  List.getD_eq_getElem l default h

theorem length_swapIdx (l : List Order) (i j : Nat) :
    (swapIdx l i j).length = l.length := by
  simp [swapIdx]

theorem getElem?_swapIdx_other {l : List Order} {i j k : Nat}
    (hki : k ≠ i) (hkj : k ≠ j) : (swapIdx l i j)[k]? = l[k]? := by
  simp only [swapIdx]
  rw [List.getElem?_set_ne (Ne.symm hkj), List.getElem?_set_ne (Ne.symm hki)]

theorem getAt_swapIdx_other {l : List Order} {i j k : Nat}
    (hki : k ≠ i) (hkj : k ≠ j) : getAt (swapIdx l i j) k = getAt l k := by
  simp only [getAt, List.getD_eq_getElem?_getD]
  rw [getElem?_swapIdx_other hki hkj]

theorem getAt_swapIdx_snd {l : List Order} {i j : Nat} (hj : j < l.length) :
    getAt (swapIdx l i j) j = { getAt l i with Index := Int.ofNat j } := by
  simp only [getAt, swapIdx, List.getD_eq_getElem?_getD]
  rw [List.getElem?_set_self (by simpa using hj)]
  rfl

theorem getAt_swapIdx_fst {l : List Order} {i j : Nat} (hi : i < l.length)
    (hij : i ≠ j) : getAt (swapIdx l i j) i = { getAt l j with Index := Int.ofNat i } := by
  simp only [getAt, swapIdx, List.getD_eq_getElem?_getD]
  rw [List.getElem?_set_ne (Ne.symm hij), List.getElem?_set_self hi]
  rfl

theorem prAt_swapIdx_other {l : List Order} {i j k : Nat}
    (hki : k ≠ i) (hkj : k ≠ j) : prAt (swapIdx l i j) k = prAt l k := by
  simp [prAt, getAt_swapIdx_other hki hkj]

theorem prAt_swapIdx_snd {l : List Order} {i j : Nat} (hj : j < l.length) :
    prAt (swapIdx l i j) j = prAt l i := by
  simp [prAt, getAt_swapIdx_snd hj]

theorem prAt_swapIdx_fst {l : List Order} {i j : Nat} (hi : i < l.length)
    (hij : i ≠ j) : prAt (swapIdx l i j) i = prAt l j := by
  simp [prAt, getAt_swapIdx_fst hi hij]

theorem strip_update_index (x : Order) (n : Int) :
    strip { x with Index := n } = strip x := rfl

/-- Exchanging two positions of a list is a permutation. -/
theorem set_set_perm {α : Type} [DecidableEq α] (L : List α) (i j : Nat)
    (hi : i < L.length) (hj : j < L.length) :
    ((L.set i L[j]).set j L[i]).Perm L := by
  rw [List.perm_iff_count]
  intro x
  have hj2 : j < (L.set i L[j]).length := by simpa using hj
  rw [List.count_set _ _ _ _ hj2, List.count_set _ _ _ _ hi]
  have hgi : (L.set i L[j])[j] = L[j] := by
    rw [List.getElem_set]
    split <;> simp_all
  rw [hgi]
  by_cases h1 : L[i] = x
  · have hpos : 0 < List.count x L := List.count_pos_iff.mpr (h1 ▸ List.getElem_mem hi)
    by_cases h2 : L[j] = x <;> simp [beq_iff_eq, h1, h2] <;> omega
  · by_cases h2 : L[j] = x <;> simp [beq_iff_eq, h1, h2]

theorem logicalMS_swapIdx {l : List Order} {i j : Nat}
    (hi : i < l.length) (hj : j < l.length) :
    logicalMS (swapIdx l i j) = logicalMS l := by
  simp only [logicalMS, swapIdx, List.map_set]
  rw [Multiset.coe_eq_coe]
  have hi2 : i < (List.map strip l).length := by simpa using hi
  have hj2 : j < (List.map strip l).length := by simpa using hj
  have e1 : strip { getAt l j with Index := Int.ofNat i } = (List.map strip l)[j] := by
    rw [strip_update_index, getAt_eq_getElem hj, List.getElem_map]
  have e2 : strip { getAt l i with Index := Int.ofNat j } = (List.map strip l)[i] := by
    rw [strip_update_index, getAt_eq_getElem hi, List.getElem_map]
  rw [e1, e2]
  exact set_set_perm (List.map strip l) i j hi2 hj2

/-! ## Length, multiset and index preservation through the sift routines -/

theorem upFuel_length (plt : ℚ → ℚ → Bool) (fuel : Nat) (l : List Order)
    (j : Nat) : (upFuel plt fuel l j).length = l.length := by
  induction fuel, l, j using upFuel.induct plt with
  | case1 l x => simp [upFuel]
  | case2 fuel l => simp [upFuel]
  | case3 fuel l j hj hlt ih =>
    simp only [upFuel]
    rw [if_neg hj, if_pos hlt, ih, length_swapIdx]
  | case4 fuel l j hj hlt =>
    simp only [upFuel]
    rw [if_neg hj, if_neg hlt]

theorem up_length (plt : ℚ → ℚ → Bool) (l : List Order) (j : Nat) :
    (up plt l j).length = l.length :=
  upFuel_length plt j l j

theorem downFuel_length (plt : ℚ → ℚ → Bool) (fuel : Nat) (l : List Order)
    (i n : Nat) : (downFuel plt fuel l i n).length = l.length := by
  induction fuel, l, i, n using downFuel.induct plt with
  | case1 l i n => simp [downFuel]
  | case2 fuel l i n h1 h2 hlt ih =>
    simp only [downFuel]
    rw [if_pos h1, if_pos h2, if_pos hlt, ih, length_swapIdx]
  | case3 fuel l i n h1 h2 hlt =>
    simp only [downFuel]
    rw [if_pos h1, if_pos h2, if_neg hlt]
  | case4 fuel l i n h1 h2 hlt ih =>
    simp only [downFuel]
    rw [if_pos h1, if_neg h2, if_pos hlt, ih, length_swapIdx]
  | case5 fuel l i n h1 h2 hlt =>
    simp only [downFuel]
    rw [if_pos h1, if_neg h2, if_neg hlt]
  | case6 fuel l i n h1 =>
    simp only [downFuel]
    rw [if_neg h1]

theorem down_length (plt : ℚ → ℚ → Bool) (l : List Order) (i n : Nat) :
    (down plt l i n).length = l.length :=
  downFuel_length plt n l i n

theorem logicalMS_upFuel (plt : ℚ → ℚ → Bool) (fuel : Nat) (l : List Order)
    (j : Nat) (hj : j < l.length) :
    logicalMS (upFuel plt fuel l j) = logicalMS l := by
  induction fuel, l, j using upFuel.induct plt with
  | case1 l x => simp [upFuel]
  | case2 fuel l => simp [upFuel]
  | case3 fuel l j hj0 hlt ih =>
    simp only [upFuel]
    rw [if_neg hj0, if_pos hlt]
    have hp : (j - 1) / 2 < l.length := by omega
    have hj2 : (j - 1) / 2 < (swapIdx l ((j - 1) / 2) j).length := by
      rw [length_swapIdx]; omega
    rw [ih hj2, logicalMS_swapIdx hp hj]
  | case4 fuel l j hj0 hlt =>
    simp only [upFuel]
    rw [if_neg hj0, if_neg hlt]

theorem logicalMS_up (plt : ℚ → ℚ → Bool) (l : List Order) (j : Nat)
    (hj : j < l.length) : logicalMS (up plt l j) = logicalMS l :=
  logicalMS_upFuel plt j l j hj

theorem logicalMS_downFuel (plt : ℚ → ℚ → Bool) (fuel : Nat) (l : List Order)
    (i n : Nat) (hn : n ≤ l.length) :
    logicalMS (downFuel plt fuel l i n) = logicalMS l := by
  induction fuel, l, i, n using downFuel.induct plt with
  | case1 l i n => simp [downFuel]
  | case2 fuel l i n h1 h2 hlt ih =>
    simp only [downFuel]
    rw [if_pos h1, if_pos h2, if_pos hlt]
    have hi : i < l.length := by omega
    have hj : 2 * i + 2 < l.length := by omega
    have hn2 : n ≤ (swapIdx l i (2 * i + 2)).length := by rw [length_swapIdx]; omega
    rw [ih hn2, logicalMS_swapIdx hi hj]
  | case3 fuel l i n h1 h2 hlt =>
    simp only [downFuel]
    rw [if_pos h1, if_pos h2, if_neg hlt]
  | case4 fuel l i n h1 h2 hlt ih =>
    simp only [downFuel]
    rw [if_pos h1, if_neg h2, if_pos hlt]
    have hi : i < l.length := by omega
    have hj : 2 * i + 1 < l.length := by omega
    have hn2 : n ≤ (swapIdx l i (2 * i + 1)).length := by rw [length_swapIdx]; omega
    rw [ih hn2, logicalMS_swapIdx hi hj]
  | case5 fuel l i n h1 h2 hlt =>
    simp only [downFuel]
    rw [if_pos h1, if_neg h2, if_neg hlt]
  | case6 fuel l i n h1 =>
    simp only [downFuel]
    rw [if_neg h1]

theorem logicalMS_down (plt : ℚ → ℚ → Bool) (l : List Order) (i n : Nat)
    (hn : n ≤ l.length) : logicalMS (down plt l i n) = logicalMS l :=
  logicalMS_downFuel plt n l i n hn

theorem getAt_downFuel_ge (plt : ℚ → ℚ → Bool) (fuel : Nat) (l : List Order)
    (i n k : Nat) (hk : n ≤ k) :
    getAt (downFuel plt fuel l i n) k = getAt l k := by
  induction fuel, l, i, n using downFuel.induct plt with
  | case1 l i n => simp [downFuel]
  | case2 fuel l i n h1 h2 hlt ih =>
    simp only [downFuel]
    rw [if_pos h1, if_pos h2, if_pos hlt]
    rw [ih hk, getAt_swapIdx_other (by omega) (by omega)]
  | case3 fuel l i n h1 h2 hlt =>
    simp only [downFuel]
    rw [if_pos h1, if_pos h2, if_neg hlt]
  | case4 fuel l i n h1 h2 hlt ih =>
    simp only [downFuel]
    rw [if_pos h1, if_neg h2, if_pos hlt]
    rw [ih hk, getAt_swapIdx_other (by omega) (by omega)]
  | case5 fuel l i n h1 h2 hlt =>
    simp only [downFuel]
    rw [if_pos h1, if_neg h2, if_neg hlt]
  | case6 fuel l i n h1 =>
    simp only [downFuel]
    rw [if_neg h1]

theorem getAt_down_ge (plt : ℚ → ℚ → Bool) (l : List Order) (i n k : Nat)
    (hk : n ≤ k) : getAt (down plt l i n) k = getAt l k :=
  getAt_downFuel_ge plt n l i n k hk

theorem wellIndexed_swapIdx {l : List Order} {i j : Nat}
    (hi : i < l.length) (hj : j < l.length) (h : wellIndexed l) :
    wellIndexed (swapIdx l i j) := by
  intro k hk
  rw [length_swapIdx] at hk
  by_cases hkj : k = j
  · subst hkj; rw [getAt_swapIdx_snd hj]
  · by_cases hki : k = i
    · subst hki
      have hij : k ≠ j := hkj
      rw [getAt_swapIdx_fst hi hij]
    · rw [getAt_swapIdx_other hki hkj]; exact h k hk

theorem wellIndexed_upFuel (plt : ℚ → ℚ → Bool) (fuel : Nat) {l : List Order}
    {j : Nat} (hj : j < l.length) (h : wellIndexed l) :
    wellIndexed (upFuel plt fuel l j) := by
  induction fuel, l, j using upFuel.induct plt with
  | case1 l x => simpa [upFuel] using h
  | case2 fuel l => simpa [upFuel] using h
  | case3 fuel l j hj0 hlt ih =>
    simp only [upFuel]
    rw [if_neg hj0, if_pos hlt]
    have hp : (j - 1) / 2 < l.length := by omega
    exact ih (by rw [length_swapIdx]; omega) (wellIndexed_swapIdx hp hj h)
  | case4 fuel l j hj0 hlt =>
    simp only [upFuel]
    rw [if_neg hj0, if_neg hlt]
    exact h

theorem wellIndexed_up (plt : ℚ → ℚ → Bool) {l : List Order} {j : Nat}
    (hj : j < l.length) (h : wellIndexed l) : wellIndexed (up plt l j) :=
  wellIndexed_upFuel plt j hj h

theorem wellIndexed_downFuel (plt : ℚ → ℚ → Bool) (fuel : Nat) {l : List Order}
    {i n : Nat} (hn : n ≤ l.length) (h : wellIndexed l) :
    wellIndexed (downFuel plt fuel l i n) := by
  induction fuel, l, i, n using downFuel.induct plt with
  | case1 l i n => simpa [downFuel] using h
  | case2 fuel l i n h1 h2 hlt ih =>
    simp only [downFuel]
    rw [if_pos h1, if_pos h2, if_pos hlt]
    exact ih (by rw [length_swapIdx]; omega)
      (wellIndexed_swapIdx (by omega) (by omega) h)
  | case3 fuel l i n h1 h2 hlt =>
    simp only [downFuel]
    rw [if_pos h1, if_pos h2, if_neg hlt]
    exact h
  | case4 fuel l i n h1 h2 hlt ih =>
    simp only [downFuel]
    rw [if_pos h1, if_neg h2, if_pos hlt]
    exact ih (by rw [length_swapIdx]; omega)
      (wellIndexed_swapIdx (by omega) (by omega) h)
  | case5 fuel l i n h1 h2 hlt =>
    simp only [downFuel]
    rw [if_pos h1, if_neg h2, if_neg hlt]
    exact h
  | case6 fuel l i n h1 =>
    simp only [downFuel]
    rw [if_neg h1]
    exact h

theorem wellIndexed_down (plt : ℚ → ℚ → Bool) {l : List Order} {i n : Nat}
    (hn : n ≤ l.length) (h : wellIndexed l) : wellIndexed (down plt l i n) :=
  wellIndexed_downFuel plt n hn h

/-! ## Push and pop -/

theorem heapPush_eq_up (plt : ℚ → ℚ → Bool) (l : List Order) (o : Order) :
    heapPush plt l o =
      up plt (l ++ [{ o with Index := Int.ofNat l.length }]) l.length := by
  simp [heapPush]

theorem length_heapPush (plt : ℚ → ℚ → Bool) (l : List Order) (o : Order) :
    (heapPush plt l o).length = l.length + 1 := by
  rw [heapPush_eq_up, up_length]; simp

theorem logicalMS_append_singleton (l : List Order) (o : Order) :
    logicalMS (l ++ [o]) = strip o ::ₘ logicalMS l := by
  simp only [logicalMS, List.map_append, List.map_cons, List.map_nil]
  rw [Multiset.cons_coe, Multiset.coe_eq_coe]
  exact List.perm_append_singleton _ _

theorem logicalMS_heapPush (plt : ℚ → ℚ → Bool) (l : List Order) (o : Order) :
    logicalMS (heapPush plt l o) = strip o ::ₘ logicalMS l := by
  rw [heapPush_eq_up, logicalMS_up plt _ _ (by simp),
    logicalMS_append_singleton, strip_update_index]

theorem getAt_append_left {l l2 : List Order} {k : Nat} (hk : k < l.length) :
    getAt (l ++ l2) k = getAt l k :=
  List.getD_append _ _ _ _ hk

theorem getAt_append_last (l : List Order) (o : Order) :
    getAt (l ++ [o]) l.length = o := by
  simp [getAt, List.getD_eq_getElem?_getD, List.getElem?_append]

theorem wellIndexed_heapPush (plt : ℚ → ℚ → Bool) {l : List Order} (o : Order)
    (h : wellIndexed l) : wellIndexed (heapPush plt l o) := by
  rw [heapPush_eq_up]
  refine wellIndexed_up plt (by simp) ?_
  intro k hk
  simp only [List.length_append, List.length_cons, List.length_nil] at hk
  by_cases hkl : k < l.length
  · rw [getAt_append_left hkl]; exact h k hkl
  · have hk2 : k = l.length := by omega
    subst hk2
    rw [getAt_append_last]

theorem heapPop_fst_index (plt : ℚ → ℚ → Bool) (l : List Order) :
    (heapPop plt l).1.Index = -1 := rfl

theorem length_heapPop_snd (plt : ℚ → ℚ → Bool) (l : List Order) :
    (heapPop plt l).2.length = l.length - 1 := by
  simp only [heapPop, List.length_take, down_length, length_swapIdx]
  omega

theorem heapPop_fst_strip (plt : ℚ → ℚ → Bool) {l : List Order} (hne : l ≠ []) :
    strip (heapPop plt l).1 = strip (getAt l 0) := by
  have hlen : 0 < l.length := List.length_pos.mpr hne
  simp only [heapPop]
  rw [strip_update_index,
    getAt_down_ge plt _ 0 (l.length - 1) (l.length - 1) le_rfl,
    getAt_swapIdx_snd (by omega), strip_update_index]

theorem getAt_take {l : List Order} {n k : Nat} (hk : k < n) :
    getAt (l.take n) k = getAt l k := by
  simp [getAt, List.getD_eq_getElem?_getD, List.getElem?_take, hk]

theorem logicalMS_heapPop (plt : ℚ → ℚ → Bool) {l : List Order} (hne : l ≠ []) :
    logicalMS l = strip (getAt l 0) ::ₘ logicalMS (heapPop plt l).2 := by
  have hlen : 0 < l.length := List.length_pos.mpr hne
  have hl2 : (down plt (swapIdx l 0 (l.length - 1)) 0 (l.length - 1)).length
      = l.length := by rw [down_length, length_swapIdx]
  have hn : l.length - 1 < (down plt (swapIdx l 0 (l.length - 1)) 0
      (l.length - 1)).length := by omega
  have hsplit : down plt (swapIdx l 0 (l.length - 1)) 0 (l.length - 1) =
      (down plt (swapIdx l 0 (l.length - 1)) 0 (l.length - 1)).take (l.length - 1)
        ++ [(down plt (swapIdx l 0 (l.length - 1)) 0 (l.length - 1))[l.length - 1]] := by
    rw [← List.concat_eq_append, List.take_concat_get]
    have : l.length - 1 + 1 =
        (down plt (swapIdx l 0 (l.length - 1)) 0 (l.length - 1)).length := by omega
    rw [this, List.take_length]
  have hms : logicalMS l =
      logicalMS (down plt (swapIdx l 0 (l.length - 1)) 0 (l.length - 1)) := by
    rw [logicalMS_down plt _ 0 _ (by rw [length_swapIdx]; omega),
      logicalMS_swapIdx (by omega) (by omega)]
  rw [hms]
  conv_lhs => rw [hsplit]
  rw [logicalMS_append_singleton]
  have hlast : (down plt (swapIdx l 0 (l.length - 1)) 0 (l.length - 1))[l.length - 1] =
      getAt (down plt (swapIdx l 0 (l.length - 1)) 0 (l.length - 1)) (l.length - 1) :=
    (getAt_eq_getElem hn).symm
  rw [hlast]
  rw [getAt_down_ge plt _ 0 (l.length - 1) (l.length - 1) le_rfl,
    getAt_swapIdx_snd (by omega), strip_update_index]
  rfl

theorem wellIndexed_heapPop_snd (plt : ℚ → ℚ → Bool) {l : List Order}
    (hne : l ≠ []) (h : wellIndexed l) : wellIndexed (heapPop plt l).2 := by
  have hlen : 0 < l.length := List.length_pos.mpr hne
  have h1 : wellIndexed (swapIdx l 0 (l.length - 1)) :=
    wellIndexed_swapIdx (by omega) (by omega) h
  have h2 : wellIndexed (down plt (swapIdx l 0 (l.length - 1)) 0 (l.length - 1)) :=
    wellIndexed_down plt (by rw [length_swapIdx]; omega) h1
  intro k hk
  rw [length_heapPop_snd] at hk
  simp only [heapPop]
  rw [getAt_take (by omega)]
  exact h2 k (by rw [down_length, length_swapIdx]; omega)

/-! ## The heap-ordering invariant through the sift routines -/

theorem notTrue_eq_false {b : Bool} (h : ¬b = true) : b = false := by
  cases b
  · rfl
  · exact absurd rfl h

theorem prAt_append_left {l l2 : List Order} {k : Nat} (hk : k < l.length) :
    prAt (l ++ l2) k = prAt l k := by
  rw [prAt, prAt, getAt_append_left hk]

theorem prAt_take {l : List Order} {n k : Nat} (hk : k < n) :
    prAt (l.take n) k = prAt l k := by
  rw [prAt, prAt, getAt_take hk]

/-- Sift-up precondition: the heap invariant holds on every edge except
possibly the one from `j` to its parent, and the children of `j` are not
`Less` than `j`'s parent. -/
def upState (plt : ℚ → ℚ → Bool) (l : List Order) (j : Nat) : Prop :=
  (∀ k, 0 < k → k < l.length → k ≠ j →
    plt (prAt l k) (prAt l ((k - 1) / 2)) = false) ∧
  (∀ k, 0 < k → k < l.length → (k - 1) / 2 = j → 0 < j →
    plt (prAt l k) (prAt l ((j - 1) / 2)) = false)

/-- Sift-down precondition on the prefix of length `n`: the heap invariant
holds on every edge except possibly those into the hole `i`, and the children
of `i` are not `Less` than `i`'s parent. -/
def downState (plt : ℚ → ℚ → Bool) (l : List Order) (i n : Nat) : Prop :=
  (∀ k, 0 < k → k < n → (k - 1) / 2 ≠ i →
    plt (prAt l k) (prAt l ((k - 1) / 2)) = false) ∧
  (∀ k, 0 < k → k < n → (k - 1) / 2 = i → 0 < i →
    plt (prAt l k) (prAt l ((i - 1) / 2)) = false)

theorem upState_swap {plt : ℚ → ℚ → Bool} (H : PltOK plt) {l : List Order}
    {j : Nat} (hj0 : j ≠ 0) (hjl : j < l.length)
    (hlt : plt (prAt l j) (prAt l ((j - 1) / 2)) = true)
    (hs : upState plt l j) :
    upState plt (swapIdx l ((j - 1) / 2) j) ((j - 1) / 2) := by
  obtain ⟨hs1, hs2⟩ := hs
  have hil : (j - 1) / 2 < l.length := by omega
  have hne : (j - 1) / 2 ≠ j := by omega
  have ei : prAt (swapIdx l ((j - 1) / 2) j) ((j - 1) / 2) = prAt l j :=
    prAt_swapIdx_fst hil hne
  have ej : prAt (swapIdx l ((j - 1) / 2) j) j = prAt l ((j - 1) / 2) :=
    prAt_swapIdx_snd hjl
  have eo : ∀ k, k ≠ (j - 1) / 2 → k ≠ j →
      prAt (swapIdx l ((j - 1) / 2) j) k = prAt l k :=
    fun k h1 h2 => prAt_swapIdx_other h1 h2
  constructor
  · intro k hk0 hkl hki
    rw [length_swapIdx] at hkl
    by_cases hkj : k = j
    · subst hkj
      rw [ej, ei]
      exact H.asym _ _ hlt
    · rw [eo k hki hkj]
      by_cases hpk_i : (k - 1) / 2 = (j - 1) / 2
      · rw [hpk_i, ei]
        have h1 : plt (prAt l k) (prAt l ((j - 1) / 2)) = false := by
          have := hs1 k hk0 hkl hkj
          rwa [hpk_i] at this
        exact H.step1 h1 hlt
      · by_cases hpk_j : (k - 1) / 2 = j
        · rw [hpk_j, ej]
          exact hs2 k hk0 hkl hpk_j (by omega)
        · rw [eo _ hpk_i hpk_j]
          exact hs1 k hk0 hkl hkj
  · intro k hk0 hkl hpk hi0
    rw [length_swapIdx] at hkl
    rw [eo (((j - 1) / 2 - 1) / 2) (by omega) (by omega)]
    by_cases hkj : k = j
    · rw [hkj, ej]
      exact hs1 ((j - 1) / 2) hi0 hil hne
    · have hki : k ≠ (j - 1) / 2 := by omega
      rw [eo k hki hkj]
      have h1 : plt (prAt l k) (prAt l ((j - 1) / 2)) = false := by
        have := hs1 k hk0 hkl hkj
        rwa [hpk] at this
      exact H.ntrans _ _ _ h1 (hs1 ((j - 1) / 2) hi0 hil hne)

theorem upFuel_heapOrdered {plt : ℚ → ℚ → Bool} (H : PltOK plt) :
    ∀ fuel l j, j ≤ fuel → j < l.length → upState plt l j →
      heapOrdered plt (upFuel plt fuel l j) := by
  intro fuel l j
  induction fuel, l, j using upFuel.induct plt with
  | case1 l x =>
    intro hf _ hs
    have hx : x = 0 := by omega
    subst hx
    simp only [upFuel]
    intro k hk0 hkl
    exact hs.1 k hk0 hkl (by omega)
  | case2 fuel l =>
    intro _ _ hs
    simp only [upFuel, if_pos]
    intro k hk0 hkl
    exact hs.1 k hk0 hkl (by omega)
  | case3 fuel l j hj0 hlt ih =>
    intro hf hjl hs
    simp only [upFuel]
    rw [if_neg hj0, if_pos hlt]
    exact ih (by omega) (by rw [length_swapIdx]; omega)
      (upState_swap H hj0 hjl hlt hs)
  | case4 fuel l j hj0 hlt =>
    intro _ hjl hs
    simp only [upFuel]
    rw [if_neg hj0, if_neg hlt]
    intro k hk0 hkl
    by_cases hkj : k = j
    · subst hkj
      exact notTrue_eq_false hlt
    · exact hs.1 k hk0 hkl hkj

theorem up_heapOrdered {plt : ℚ → ℚ → Bool} (H : PltOK plt) :
    ∀ l j, j < l.length → upState plt l j → heapOrdered plt (up plt l j) :=
  fun l j hj hs => upFuel_heapOrdered H j l j le_rfl hj hs

theorem heapOrdered_heapPush {plt : ℚ → ℚ → Bool} (H : PltOK plt)
    {l : List Order} (o : Order) (h : heapOrdered plt l) :
    heapOrdered plt (heapPush plt l o) := by
  rw [heapPush_eq_up]
  apply up_heapOrdered H _ _ (by simp)
  constructor
  · intro k hk0 hkl hkj
    simp only [List.length_append, List.length_cons, List.length_nil] at hkl
    have hkl2 : k < l.length := by omega
    rw [prAt_append_left hkl2, prAt_append_left (by omega)]
    exact h k hk0 hkl2
  · intro k hk0 hkl hpk hj0
    simp only [List.length_append, List.length_cons, List.length_nil] at hkl
    omega

theorem downState_swap {plt : ℚ → ℚ → Bool} (H : PltOK plt) {l : List Order}
    {i n j : Nat} (hj : j = 2 * i + 1 ∨ j = 2 * i + 2) (hjn : j < n)
    (hn : n ≤ l.length)
    (hsib : ∀ s, 0 < s → s < n → (s - 1) / 2 = i → s ≠ j →
      plt (prAt l s) (prAt l j) = false)
    (hlt : plt (prAt l j) (prAt l i) = true)
    (hs : downState plt l i n) :
    downState plt (swapIdx l i j) j n := by
  obtain ⟨hs1, hs2⟩ := hs
  have hil : i < l.length := by omega
  have hjl : j < l.length := by omega
  have hne : i ≠ j := by omega
  have hpj : (j - 1) / 2 = i := by omega
  have ei : prAt (swapIdx l i j) i = prAt l j := prAt_swapIdx_fst hil hne
  have ej : prAt (swapIdx l i j) j = prAt l i := prAt_swapIdx_snd hjl
  have eo : ∀ k, k ≠ i → k ≠ j → prAt (swapIdx l i j) k = prAt l k :=
    fun k h1 h2 => prAt_swapIdx_other h1 h2
  constructor
  · intro k hk0 hkn hpk
    by_cases hkj : k = j
    · subst hkj
      rw [ej, hpj, ei]
      exact H.asym _ _ hlt
    · by_cases hki : k = i
      · rw [hki, ei, eo ((i - 1) / 2) (by omega) (by omega)]
        exact hs2 j (by omega) hjn hpj (by omega)
      · rw [eo k hki hkj]
        by_cases hpk_i : (k - 1) / 2 = i
        · rw [hpk_i, ei]
          exact hsib k hk0 hkn hpk_i hkj
        · rw [eo ((k - 1) / 2) hpk_i hpk]
          exact hs1 k hk0 hkn hpk_i
  · intro k hk0 hkn hpk hj0
    have hki : k ≠ i := by omega
    have hkj : k ≠ j := by omega
    rw [hpj, ei, eo k hki hkj]
    have h1 := hs1 k hk0 hkn (by omega)
    rwa [hpk] at h1

theorem downFuel_heapOrderedN {plt : ℚ → ℚ → Bool} (H : PltOK plt) :
    ∀ fuel l i n, n - i ≤ fuel → n ≤ l.length → downState plt l i n →
      ∀ k, 0 < k → k < n →
        plt (prAt (downFuel plt fuel l i n) k)
          (prAt (downFuel plt fuel l i n) ((k - 1) / 2)) = false := by
  intro fuel l i n
  induction fuel, l, i, n using downFuel.induct plt with
  | case1 l i n =>
    intro hf hn hs k hk0 hkn
    simp only [downFuel]
    by_cases hpk : (k - 1) / 2 = i
    · omega
    · exact hs.1 k hk0 hkn hpk
  | case2 fuel l i n h1 h2 hlt ih =>
    intro hf hn hs
    simp only [downFuel]
    rw [if_pos h1, if_pos h2, if_pos hlt]
    apply ih (by omega) (by rw [length_swapIdx]; omega)
    apply downState_swap H (Or.inr rfl) h2.1 hn ?_ hlt hs
    intro s hs0 hsn hps hsj
    have hse : s = 2 * i + 1 := by omega
    subst hse
    exact H.asym _ _ h2.2
  | case3 fuel l i n h1 h2 hlt =>
    intro hf hn hs k hk0 hkn
    simp only [downFuel]
    rw [if_pos h1, if_pos h2, if_neg hlt]
    have hltf : plt (prAt l (2 * i + 2)) (prAt l i) = false := notTrue_eq_false hlt
    by_cases hpk : (k - 1) / 2 = i
    · rcases (by omega : k = 2 * i + 1 ∨ k = 2 * i + 2) with hk | hk
      · subst hk
        rw [hpk]
        exact H.step2 hltf h2.2
      · subst hk
        rw [hpk]
        exact hltf
    · exact hs.1 k hk0 hkn hpk
  | case4 fuel l i n h1 h2 hlt ih =>
    intro hf hn hs
    simp only [downFuel]
    rw [if_pos h1, if_neg h2, if_pos hlt]
    apply ih (by omega) (by rw [length_swapIdx]; omega)
    apply downState_swap H (Or.inl rfl) h1 hn ?_ hlt hs
    intro s hs0 hsn hps hsj
    have hse : s = 2 * i + 2 := by omega
    subst hse
    have h2n : 2 * i + 2 < n := hsn
    have hb := fun hb2 => h2 ⟨h2n, hb2⟩
    exact notTrue_eq_false hb
  | case5 fuel l i n h1 h2 hlt =>
    intro hf hn hs k hk0 hkn
    simp only [downFuel]
    rw [if_pos h1, if_neg h2, if_neg hlt]
    have hltf : plt (prAt l (2 * i + 1)) (prAt l i) = false := notTrue_eq_false hlt
    by_cases hpk : (k - 1) / 2 = i
    · rcases (by omega : k = 2 * i + 1 ∨ k = 2 * i + 2) with hk | hk
      · subst hk
        rw [hpk]
        exact hltf
      · subst hk
        rw [hpk]
        have h2n : 2 * i + 2 < n := hkn
        have hb : plt (prAt l (2 * i + 2)) (prAt l (2 * i + 1)) = false :=
          notTrue_eq_false (fun hb2 => h2 ⟨h2n, hb2⟩)
        exact H.ntrans _ _ _ hb hltf
    · exact hs.1 k hk0 hkn hpk
  | case6 fuel l i n h1 =>
    intro hf hn hs k hk0 hkn
    simp only [downFuel]
    rw [if_neg h1]
    by_cases hpk : (k - 1) / 2 = i
    · omega
    · exact hs.1 k hk0 hkn hpk

theorem down_heapOrderedN {plt : ℚ → ℚ → Bool} (H : PltOK plt) :
    ∀ l i n, n ≤ l.length → downState plt l i n →
      ∀ k, 0 < k → k < n →
        plt (prAt (down plt l i n) k)
          (prAt (down plt l i n) ((k - 1) / 2)) = false :=
  fun l i n hn hs => downFuel_heapOrderedN H n l i n (by omega) hn hs

theorem heapOrdered_heapPop {plt : ℚ → ℚ → Bool} (H : PltOK plt)
    {l : List Order} (hne : l ≠ []) (h : heapOrdered plt l) :
    heapOrdered plt (heapPop plt l).2 := by
  have hlen : 0 < l.length := List.length_pos.mpr hne
  have hds : downState plt (swapIdx l 0 (l.length - 1)) 0 (l.length - 1) := by
    constructor
    · intro k hk0 hkn hpk
      rw [prAt_swapIdx_other (by omega) (by omega),
        prAt_swapIdx_other (by omega) (by omega)]
      exact h k hk0 (by omega)
    · intro k hk0 hkn hpk hi0
      exact absurd hi0 (by omega)
  have hmain := down_heapOrderedN H (swapIdx l 0 (l.length - 1)) 0
    (l.length - 1) (by rw [length_swapIdx]; omega) hds
  intro k hk0 hkl
  rw [length_heapPop_snd] at hkl
  simp only [heapPop]
  rw [prAt_take (by omega), prAt_take (by omega)]
  exact hmain k hk0 (by omega)

/-- In a heap-ordered array no element is `Less` than the root. -/
theorem heapOrdered_root {plt : ℚ → ℚ → Bool} (H : PltOK plt) {l : List Order}
    (h : heapOrdered plt l) : ∀ k, k < l.length → plt (prAt l k) (prAt l 0) = false := by
  intro k
  induction k using Nat.strong_induction_on with
  | _ k ih =>
    intro hkl
    rcases Nat.eq_zero_or_pos k with hk0 | hk0
    · subst hk0
      exact H.irrefl _
    · exact H.ntrans _ _ _ (h k hk0 hkl) (ih ((k - 1) / 2) (by omega) (by omega))

/-! ## Branch equations for the matching loop body -/

theorem goMin_le_left (a b : Int) : goMin a b ≤ a := by
  rw [goMin]; split <;> omega

theorem goMin_le_right (a b : Int) : goMin a b ≤ b := by
  rw [goMin]; split <;> omega

theorem goMin_eq_min (a b : Int) : goMin a b = min a b := by
  rw [goMin]; split <;> omega

/-- Total number of resident orders. -/
def totalLen (st : EngineState) : Nat :=
  st.BuyOrders.length + st.SellOrders.length

theorem matchIter_empty_buy (st : EngineState) (h : st.BuyOrders.length = 0) :
    matchIter st = (st, none, false) := by
  rw [matchIter, if_pos h]

theorem matchIter_empty_sell (st : EngineState) (bb : Order) (buys1 : List Order)
    (hpb : heapPop buyPlt st.BuyOrders = (bb, buys1))
    (hb : ¬st.BuyOrders.length = 0) (hs : st.SellOrders.length = 0) :
    matchIter st = ({ BuyOrders := heapPush buyPlt buys1 bb
                      SellOrders := st.SellOrders }, none, false) := by
  simp only [matchIter, hpb]
  rw [if_neg hb, if_pos hs]

theorem matchIter_nocross (st : EngineState) (bb bs : Order)
    (buys1 sells1 : List Order)
    (hpb : heapPop buyPlt st.BuyOrders = (bb, buys1))
    (hps : heapPop sellPlt st.SellOrders = (bs, sells1))
    (hb : ¬st.BuyOrders.length = 0) (hs : ¬st.SellOrders.length = 0)
    (hlt : ¬bb.Price ≥ bs.Price) :
    matchIter st = ({ BuyOrders := heapPush buyPlt buys1 bb
                      SellOrders := heapPush sellPlt sells1 bs }, none, false) := by
  simp only [matchIter, hpb, hps]
  rw [if_neg hb, if_neg hs, if_neg hlt]

theorem matchIter_cross (st : EngineState) (bb bs : Order)
    (buys1 sells1 : List Order)
    (hpb : heapPop buyPlt st.BuyOrders = (bb, buys1))
    (hps : heapPop sellPlt st.SellOrders = (bs, sells1))
    (hb : ¬st.BuyOrders.length = 0) (hs : ¬st.SellOrders.length = 0)
    (hge : bb.Price ≥ bs.Price) :
    matchIter st =
      ({ BuyOrders :=
           if 0 < bb.Amount - goMin bb.Amount bs.Amount then
             heapPush buyPlt buys1
               { bb with Amount := bb.Amount - goMin bb.Amount bs.Amount }
           else buys1
         SellOrders :=
           if 0 < bs.Amount - goMin bb.Amount bs.Amount then
             heapPush sellPlt sells1
               { bs with Amount := bs.Amount - goMin bb.Amount bs.Amount }
           else sells1 },
       some (executeTrade bb bs (goMin bb.Amount bs.Amount)),
       !((if 0 < bb.Amount - goMin bb.Amount bs.Amount then
             heapPush buyPlt buys1
               { bb with Amount := bb.Amount - goMin bb.Amount bs.Amount }
           else buys1).length == 0 ||
         (if 0 < bs.Amount - goMin bb.Amount bs.Amount then
             heapPush sellPlt sells1
               { bs with Amount := bs.Amount - goMin bb.Amount bs.Amount }
           else sells1).length == 0)) := by
  simp only [matchIter, hpb, hps]
  rw [if_neg hb, if_neg hs, if_pos hge]

/-- Any iteration that asks to continue has strictly shrunk the books: the
side whose amount attained the traded minimum is dropped, never re-inserted. -/
theorem matchIter_continue (st : EngineState)
    (h : (matchIter st).2.2 = true) : totalLen (matchIter st).1 < totalLen st := by
  by_cases hb : st.BuyOrders.length = 0
  · rw [matchIter_empty_buy st hb] at h
    simp at h
  · by_cases hs : st.SellOrders.length = 0
    · rw [matchIter_empty_sell st (heapPop buyPlt st.BuyOrders).1
        (heapPop buyPlt st.BuyOrders).2 rfl hb hs] at h
      simp at h
    · by_cases hge : (heapPop buyPlt st.BuyOrders).1.Price ≥
        (heapPop sellPlt st.SellOrders).1.Price
      · rw [matchIter_cross st (heapPop buyPlt st.BuyOrders).1
          (heapPop sellPlt st.SellOrders).1 (heapPop buyPlt st.BuyOrders).2
          (heapPop sellPlt st.SellOrders).2 rfl rfl hb hs hge]
        have hlb := length_heapPop_snd buyPlt st.BuyOrders
        have hls := length_heapPop_snd sellPlt st.SellOrders
        have hmin : ¬(0 < (heapPop buyPlt st.BuyOrders).1.Amount -
            goMin (heapPop buyPlt st.BuyOrders).1.Amount
              (heapPop sellPlt st.SellOrders).1.Amount) ∨
            ¬(0 < (heapPop sellPlt st.SellOrders).1.Amount -
            goMin (heapPop buyPlt st.BuyOrders).1.Amount
              (heapPop sellPlt st.SellOrders).1.Amount) := by
          have h1 := goMin_le_left (heapPop buyPlt st.BuyOrders).1.Amount
            (heapPop sellPlt st.SellOrders).1.Amount
          have h2 := goMin_le_right (heapPop buyPlt st.BuyOrders).1.Amount
            (heapPop sellPlt st.SellOrders).1.Amount
          rw [goMin] at h1 h2 ⊢
          split <;> omega
        rcases hmin with hm | hm
        · rw [if_neg hm]
          rw [totalLen, totalLen]
          split
          · rw [length_heapPush]
            simp only []
            omega
          · simp only []
            omega
        · rw [if_neg hm]
          rw [totalLen, totalLen]
          split
          · rw [length_heapPush]
            simp only []
            omega
          · simp only []
            omega
      · rw [matchIter_nocross st (heapPop buyPlt st.BuyOrders).1
          (heapPop sellPlt st.SellOrders).1 (heapPop buyPlt st.BuyOrders).2
          (heapPop sellPlt st.SellOrders).2 rfl rfl hb hs hge] at h
        simp at h

/-- Fuel exceeding the number of resident orders always suffices. -/
theorem matchLoop_terminates :
    ∀ fuel st, totalLen st < fuel → ∃ r, matchLoop fuel st = some r := by
  intro fuel
  induction fuel with
  | zero => intro st h; omega
  | succ fuel ih =>
    intro st h
    rcases hmi : matchIter st with ⟨st2, t, c⟩
    cases c
    · exact ⟨(st2, t.toList), by rw [matchLoop, hmi]⟩
    · have hlt : totalLen st2 < totalLen st := by
        have h2 := matchIter_continue st (by rw [hmi])
        rwa [hmi] at h2
      obtain ⟨r, hr⟩ := ih st2 (by omega)
      exact ⟨(r.1, t.toList ++ r.2), by rw [matchLoop, hmi]; simp [hr]⟩

/-! ## Engine-level invariants -/

theorem heapPop_fst_Amount (plt : ℚ → ℚ → Bool) {l : List Order} (hne : l ≠ []) :
    (heapPop plt l).1.Amount = (getAt l 0).Amount := by
  have h := congrArg Order.Amount (heapPop_fst_strip plt hne)
  exact h

theorem heapPop_fst_ID (plt : ℚ → ℚ → Bool) {l : List Order} (hne : l ≠ []) :
    (heapPop plt l).1.ID = (getAt l 0).ID := by
  have h := congrArg Order.ID (heapPop_fst_strip plt hne)
  exact h

theorem allPos_iff_ms (l : List Order) :
    allPos l ↔ ∀ x ∈ logicalMS l, 0 < x.Amount := by
  constructor
  · intro h x hx
    rw [logicalMS, Multiset.mem_coe, List.mem_map] at hx
    obtain ⟨o, ho, rfl⟩ := hx
    exact h o ho
  · intro h o ho
    have hm : strip o ∈ logicalMS l := by
      rw [logicalMS, Multiset.mem_coe, List.mem_map]
      exact ⟨o, ho, rfl⟩
    exact h (strip o) hm

theorem allPos_heapPush (plt : ℚ → ℚ → Bool) {l : List Order} {o : Order}
    (h : allPos l) (ho : 0 < o.Amount) : allPos (heapPush plt l o) := by
  rw [allPos_iff_ms] at h ⊢
  rw [logicalMS_heapPush]
  intro x hx
  rw [Multiset.mem_cons] at hx
  rcases hx with rfl | hx
  · exact ho
  · exact h x hx

theorem allPos_heapPop (plt : ℚ → ℚ → Bool) {l : List Order}
    (hne : l ≠ []) (h : allPos l) : allPos (heapPop plt l).2 := by
  rw [allPos_iff_ms] at h ⊢
  intro x hx
  apply h
  rw [logicalMS_heapPop plt hne]
  exact Multiset.mem_cons_of_mem hx

theorem heapPop_fst_pos (plt : ℚ → ℚ → Bool) {l : List Order}
    (hne : l ≠ []) (h : allPos l) : 0 < (heapPop plt l).1.Amount := by
  rw [heapPop_fst_Amount plt hne]
  apply h
  rw [getAt_eq_getElem (List.length_pos.mpr hne)]
  exact List.getElem_mem _

/-- Both books satisfy the `container/heap` ordering invariant. -/
def booksOrdered (st : EngineState) : Prop :=
  heapOrdered buyPlt st.BuyOrders ∧ heapOrdered sellPlt st.SellOrders

/-- Both books contain only orders of positive residual amount. -/
def booksPos (st : EngineState) : Prop :=
  allPos st.BuyOrders ∧ allPos st.SellOrders

theorem booksOrdered_addOrderInternal {st : EngineState} (h : booksOrdered st)
    (o : Order) : booksOrdered (addOrderInternal st o) := by
  rw [addOrderInternal]
  split
  · exact ⟨heapOrdered_heapPush buyPlt_ok o h.1, h.2⟩
  · exact ⟨h.1, heapOrdered_heapPush sellPlt_ok o h.2⟩

theorem booksOrdered_matchIter {st : EngineState} (h : booksOrdered st) :
    booksOrdered (matchIter st).1 := by
  by_cases hb : st.BuyOrders.length = 0
  · rw [matchIter_empty_buy st hb]; exact h
  · have hbne : st.BuyOrders ≠ [] := fun he => hb (by rw [he]; rfl)
    by_cases hs : st.SellOrders.length = 0
    · rw [matchIter_empty_sell st _ _ rfl hb hs]
      exact ⟨heapOrdered_heapPush buyPlt_ok _
        (heapOrdered_heapPop buyPlt_ok hbne h.1), h.2⟩
    · have hsne : st.SellOrders ≠ [] := fun he => hs (by rw [he]; rfl)
      by_cases hge : (heapPop buyPlt st.BuyOrders).1.Price ≥
        (heapPop sellPlt st.SellOrders).1.Price
      · rw [matchIter_cross st _ _ _ _ rfl rfl hb hs hge]
        constructor
        · dsimp only
          split
          · exact heapOrdered_heapPush buyPlt_ok _
              (heapOrdered_heapPop buyPlt_ok hbne h.1)
          · exact heapOrdered_heapPop buyPlt_ok hbne h.1
        · dsimp only
          split
          · exact heapOrdered_heapPush sellPlt_ok _
              (heapOrdered_heapPop sellPlt_ok hsne h.2)
          · exact heapOrdered_heapPop sellPlt_ok hsne h.2
      · rw [matchIter_nocross st _ _ _ _ rfl rfl hb hs hge]
        exact ⟨heapOrdered_heapPush buyPlt_ok _
            (heapOrdered_heapPop buyPlt_ok hbne h.1),
          heapOrdered_heapPush sellPlt_ok _
            (heapOrdered_heapPop sellPlt_ok hsne h.2)⟩

theorem booksPos_addOrderInternal {st : EngineState} (h : booksPos st)
    {o : Order} (ho : 0 < o.Amount) : booksPos (addOrderInternal st o) := by
  rw [addOrderInternal]
  split
  · exact ⟨allPos_heapPush buyPlt h.1 ho, h.2⟩
  · exact ⟨h.1, allPos_heapPush sellPlt h.2 ho⟩

theorem booksPos_matchIter {st : EngineState} (h : booksPos st) :
    booksPos (matchIter st).1 := by
  by_cases hb : st.BuyOrders.length = 0
  · rw [matchIter_empty_buy st hb]; exact h
  · have hbne : st.BuyOrders ≠ [] := fun he => hb (by rw [he]; rfl)
    by_cases hs : st.SellOrders.length = 0
    · rw [matchIter_empty_sell st _ _ rfl hb hs]
      exact ⟨allPos_heapPush buyPlt (allPos_heapPop buyPlt hbne h.1)
        (heapPop_fst_pos buyPlt hbne h.1), h.2⟩
    · have hsne : st.SellOrders ≠ [] := fun he => hs (by rw [he]; rfl)
      by_cases hge : (heapPop buyPlt st.BuyOrders).1.Price ≥
        (heapPop sellPlt st.SellOrders).1.Price
      · rw [matchIter_cross st _ _ _ _ rfl rfl hb hs hge]
        constructor
        · dsimp only
          split
          · rename_i hc
            exact allPos_heapPush buyPlt (allPos_heapPop buyPlt hbne h.1) hc
          · exact allPos_heapPop buyPlt hbne h.1
        · dsimp only
          split
          · rename_i hc
            exact allPos_heapPush sellPlt (allPos_heapPop sellPlt hsne h.2) hc
          · exact allPos_heapPop sellPlt hsne h.2
      · rw [matchIter_nocross st _ _ _ _ rfl rfl hb hs hge]
        exact ⟨allPos_heapPush buyPlt (allPos_heapPop buyPlt hbne h.1)
            (heapPop_fst_pos buyPlt hbne h.1),
          allPos_heapPush sellPlt (allPos_heapPop sellPlt hsne h.2)
            (heapPop_fst_pos sellPlt hsne h.2)⟩

theorem booksOrdered_matchLoop :
    ∀ fuel (st st2 : EngineState) ts, booksOrdered st →
      matchLoop fuel st = some (st2, ts) → booksOrdered st2 := by
  intro fuel
  induction fuel with
  | zero => intro st st2 ts h he; simp [matchLoop] at he
  | succ fuel ih =>
    intro st st2 ts h he
    rcases hmi : matchIter st with ⟨stm, t, c⟩
    have hm : booksOrdered stm := by
      have h2 := booksOrdered_matchIter h
      rwa [hmi] at h2
    rw [matchLoop, hmi] at he
    cases c
    · obtain ⟨rfl, rfl⟩ : stm = st2 ∧ t.toList = ts := by simpa using he
      exact hm
    · have he2 : (match matchLoop fuel stm with
          | none => none
          | some (st3, ts3) => some (st3, t.toList ++ ts3)) = some (st2, ts) := he
      rcases hml : matchLoop fuel stm with _ | ⟨st3, ts3⟩
      · rw [hml] at he2; simp at he2
      · rw [hml] at he2
        obtain ⟨rfl, rfl⟩ : st3 = st2 ∧ t.toList ++ ts3 = ts := by simpa using he2
        exact ih stm st3 ts3 hm hml

theorem booksPos_matchLoop :
    ∀ fuel (st st2 : EngineState) ts, booksPos st →
      matchLoop fuel st = some (st2, ts) → booksPos st2 := by
  intro fuel
  induction fuel with
  | zero => intro st st2 ts h he; simp [matchLoop] at he
  | succ fuel ih =>
    intro st st2 ts h he
    rcases hmi : matchIter st with ⟨stm, t, c⟩
    have hm : booksPos stm := by
      have h2 := booksPos_matchIter h
      rwa [hmi] at h2
    rw [matchLoop, hmi] at he
    cases c
    · obtain ⟨rfl, rfl⟩ : stm = st2 ∧ t.toList = ts := by simpa using he
      exact hm
    · have he2 : (match matchLoop fuel stm with
          | none => none
          | some (st3, ts3) => some (st3, t.toList ++ ts3)) = some (st2, ts) := he
      rcases hml : matchLoop fuel stm with _ | ⟨st3, ts3⟩
      · rw [hml] at he2; simp at he2
      · rw [hml] at he2
        obtain ⟨rfl, rfl⟩ : st3 = st2 ∧ t.toList ++ ts3 = ts := by simpa using he2
        exact ih stm st3 ts3 hm hml

/-! ## Conservation of quantity -/

/-- Total residual amount held in a multiset of orders. -/
def msAmtSum (m : Multiset Order) : Int := (m.map Order.Amount).sum

/-- Residual amount held by orders with identifier `i`. -/
def msAmtSumID (i : Int) (m : Multiset Order) : Int :=
  ((m.filter (fun o => o.ID = i)).map Order.Amount).sum

/-- Total quantity of a list of trades. -/
def tsQty (ts : List Trade) : Int := (ts.map Trade.qty).sum

/-- Quantity traded by the buy order with identifier `i`. -/
def tsQtyBuyID (i : Int) (ts : List Trade) : Int :=
  ((ts.filter (fun t => t.buyID = i)).map Trade.qty).sum

/-- Quantity traded by the sell order with identifier `i`. -/
def tsQtySellID (i : Int) (ts : List Trade) : Int :=
  ((ts.filter (fun t => t.sellID = i)).map Trade.qty).sum

theorem msAmtSum_cons (x : Order) (m : Multiset Order) :
    msAmtSum (x ::ₘ m) = x.Amount + msAmtSum m := by
  simp [msAmtSum]

theorem msAmtSumID_cons (i : Int) (x : Order) (m : Multiset Order) :
    msAmtSumID i (x ::ₘ m) = (if x.ID = i then x.Amount else 0) + msAmtSumID i m := by
  by_cases h : x.ID = i <;> simp [msAmtSumID, Multiset.filter_cons, h]

theorem tsQty_append (a b : List Trade) : tsQty (a ++ b) = tsQty a + tsQty b := by
  simp [tsQty]

theorem tsQtyBuyID_append (i : Int) (a b : List Trade) :
    tsQtyBuyID i (a ++ b) = tsQtyBuyID i a + tsQtyBuyID i b := by
  simp [tsQtyBuyID]

theorem tsQtySellID_append (i : Int) (a b : List Trade) :
    tsQtySellID i (a ++ b) = tsQtySellID i a + tsQtySellID i b := by
  simp [tsQtySellID]

/-- The multiset of logical orders in a book is restored when the popped root
is pushed straight back. -/
theorem logicalMS_pop_push (plt : ℚ → ℚ → Bool) {l : List Order} (hne : l ≠ []) :
    logicalMS (heapPush plt (heapPop plt l).2 (heapPop plt l).1) = logicalMS l := by
  rw [logicalMS_heapPush, heapPop_fst_strip plt hne, ← logicalMS_heapPop plt hne]

/-- One iteration conserves quantity: what leaves each book is exactly what the
emitted trade reports, in total and per order identifier. -/
theorem matchIter_conservation (st : EngineState) :
    (msAmtSum (logicalMS st.BuyOrders) =
       msAmtSum (logicalMS (matchIter st).1.BuyOrders) +
         tsQty (matchIter st).2.1.toList) ∧
    (msAmtSum (logicalMS st.SellOrders) =
       msAmtSum (logicalMS (matchIter st).1.SellOrders) +
         tsQty (matchIter st).2.1.toList) ∧
    (∀ i, msAmtSumID i (logicalMS st.BuyOrders) =
       msAmtSumID i (logicalMS (matchIter st).1.BuyOrders) +
         tsQtyBuyID i (matchIter st).2.1.toList) ∧
    (∀ i, msAmtSumID i (logicalMS st.SellOrders) =
       msAmtSumID i (logicalMS (matchIter st).1.SellOrders) +
         tsQtySellID i (matchIter st).2.1.toList) := by
  by_cases hb : st.BuyOrders.length = 0
  · rw [matchIter_empty_buy st hb]
    simp [tsQty, tsQtyBuyID, tsQtySellID]
  · have hbne : st.BuyOrders ≠ [] := fun he => hb (by rw [he]; rfl)
    by_cases hs : st.SellOrders.length = 0
    · rw [matchIter_empty_sell st (heapPop buyPlt st.BuyOrders).1
        (heapPop buyPlt st.BuyOrders).2 rfl hb hs]
      simp [logicalMS_pop_push buyPlt hbne, tsQty, tsQtyBuyID, tsQtySellID]
    · have hsne : st.SellOrders ≠ [] := fun he => hs (by rw [he]; rfl)
      by_cases hge : (heapPop buyPlt st.BuyOrders).1.Price ≥
        (heapPop sellPlt st.SellOrders).1.Price
      · rw [matchIter_cross st (heapPop buyPlt st.BuyOrders).1
          (heapPop sellPlt st.SellOrders).1 (heapPop buyPlt st.BuyOrders).2
          (heapPop sellPlt st.SellOrders).2 rfl rfl hb hs hge]
        have hBuy : logicalMS st.BuyOrders =
            strip (heapPop buyPlt st.BuyOrders).1 ::ₘ
              logicalMS (heapPop buyPlt st.BuyOrders).2 := by
          rw [heapPop_fst_strip buyPlt hbne]
          exact logicalMS_heapPop buyPlt hbne
        have hSell : logicalMS st.SellOrders =
            strip (heapPop sellPlt st.SellOrders).1 ::ₘ
              logicalMS (heapPop sellPlt st.SellOrders).2 := by
          rw [heapPop_fst_strip sellPlt hsne]
          exact logicalMS_heapPop sellPlt hsne
        have hqb := goMin_le_left (heapPop buyPlt st.BuyOrders).1.Amount
          (heapPop sellPlt st.SellOrders).1.Amount
        have hqs := goMin_le_right (heapPop buyPlt st.BuyOrders).1.Amount
          (heapPop sellPlt st.SellOrders).1.Amount
        refine ⟨?_, ?_, ?_, ?_⟩
        · dsimp only
          rw [hBuy, msAmtSum_cons]
          split
          · rw [logicalMS_heapPush, msAmtSum_cons]
            simp [executeTrade, tsQty, strip]
            ring
          · rename_i hc
            simp only [executeTrade, tsQty, Option.toList, List.map_cons,
              List.map_nil, List.sum_cons, List.sum_nil]
            simp only [strip]
            omega
        · dsimp only
          rw [hSell, msAmtSum_cons]
          split
          · rw [logicalMS_heapPush, msAmtSum_cons]
            simp [executeTrade, tsQty, strip]
            ring
          · rename_i hc
            simp only [executeTrade, tsQty, Option.toList, List.map_cons,
              List.map_nil, List.sum_cons, List.sum_nil]
            simp only [strip]
            omega
        · intro i
          dsimp only
          by_cases hc : 0 < (heapPop buyPlt st.BuyOrders).1.Amount -
              goMin (heapPop buyPlt st.BuyOrders).1.Amount
                (heapPop sellPlt st.SellOrders).1.Amount
          · rw [if_pos hc, hBuy, msAmtSumID_cons, logicalMS_heapPush, msAmtSumID_cons]
            by_cases hid : (heapPop buyPlt st.BuyOrders).1.ID = i <;>
              simp [executeTrade, tsQtyBuyID, strip, hid] <;> omega
          · rw [if_neg hc, hBuy, msAmtSumID_cons]
            by_cases hid : (heapPop buyPlt st.BuyOrders).1.ID = i <;>
              simp [executeTrade, tsQtyBuyID, strip, hid] <;> omega
        · intro i
          dsimp only
          by_cases hc : 0 < (heapPop sellPlt st.SellOrders).1.Amount -
              goMin (heapPop buyPlt st.BuyOrders).1.Amount
                (heapPop sellPlt st.SellOrders).1.Amount
          · rw [if_pos hc, hSell, msAmtSumID_cons, logicalMS_heapPush, msAmtSumID_cons]
            by_cases hid : (heapPop sellPlt st.SellOrders).1.ID = i <;>
              simp [executeTrade, tsQtySellID, strip, hid] <;> omega
          · rw [if_neg hc, hSell, msAmtSumID_cons]
            by_cases hid : (heapPop sellPlt st.SellOrders).1.ID = i <;>
              simp [executeTrade, tsQtySellID, strip, hid] <;> omega
      · rw [matchIter_nocross st (heapPop buyPlt st.BuyOrders).1
          (heapPop sellPlt st.SellOrders).1 (heapPop buyPlt st.BuyOrders).2
          (heapPop sellPlt st.SellOrders).2 rfl rfl hb hs hge]
        simp [logicalMS_pop_push buyPlt hbne, logicalMS_pop_push sellPlt hsne,
          tsQty, tsQtyBuyID, tsQtySellID]

/-- The whole loop conserves quantity: the amount that left each book equals
the total quantity of the emitted trades, in total and per order identifier. -/
theorem matchLoop_conservation :
    ∀ fuel (st st2 : EngineState) ts, matchLoop fuel st = some (st2, ts) →
      (msAmtSum (logicalMS st.BuyOrders) =
         msAmtSum (logicalMS st2.BuyOrders) + tsQty ts) ∧
      (msAmtSum (logicalMS st.SellOrders) =
         msAmtSum (logicalMS st2.SellOrders) + tsQty ts) ∧
      (∀ i, msAmtSumID i (logicalMS st.BuyOrders) =
         msAmtSumID i (logicalMS st2.BuyOrders) + tsQtyBuyID i ts) ∧
      (∀ i, msAmtSumID i (logicalMS st.SellOrders) =
         msAmtSumID i (logicalMS st2.SellOrders) + tsQtySellID i ts) := by
  intro fuel
  induction fuel with
  | zero => intro st st2 ts he; simp [matchLoop] at he
  | succ fuel ih =>
    intro st st2 ts he
    rcases hmi : matchIter st with ⟨stm, t, c⟩
    have hstep := matchIter_conservation st
    rw [hmi] at hstep
    dsimp only at hstep
    rw [matchLoop, hmi] at he
    cases c
    · obtain ⟨rfl, rfl⟩ : stm = st2 ∧ t.toList = ts := by simpa using he
      exact hstep
    · have he2 : (match matchLoop fuel stm with
          | none => none
          | some (st3, ts3) => some (st3, t.toList ++ ts3)) = some (st2, ts) := he
      rcases hml : matchLoop fuel stm with _ | ⟨st3, ts3⟩
      · rw [hml] at he2; simp at he2
      · rw [hml] at he2
        obtain ⟨rfl, rfl⟩ : st3 = st2 ∧ t.toList ++ ts3 = ts := by simpa using he2
        obtain ⟨ih1, ih2, ih3, ih4⟩ := ih stm st3 ts3 hml
        obtain ⟨s1, s2, s3, s4⟩ := hstep
        refine ⟨?_, ?_, ?_, ?_⟩
        · rw [tsQty_append]; omega
        · rw [tsQty_append]; omega
        · intro i
          rw [tsQtyBuyID_append]
          have h3 := s3 i
          have h4 := ih3 i
          omega
        · intro i
          rw [tsQtySellID_append]
          have h3 := s4 i
          have h4 := ih4 i
          omega

/-! ## Root extremality in concrete form -/

theorem buyPlt_false_iff (p q : ℚ) : buyPlt p q = false ↔ p ≤ q := by
  simp [buyPlt]

theorem sellPlt_false_iff (p q : ℚ) : sellPlt p q = false ↔ q ≤ p := by
  simp [sellPlt]

theorem heapOrdered_buy_root {l : List Order} (h : heapOrdered buyPlt l) :
    ∀ o ∈ l, o.Price ≤ (getAt l 0).Price := by
  intro o ho
  obtain ⟨i, hi, rfl⟩ := List.mem_iff_getElem.mp ho
  have hr := heapOrdered_root buyPlt_ok h i hi
  rw [buyPlt_false_iff] at hr
  simp only [prAt] at hr
  rwa [getAt_eq_getElem hi] at hr

theorem heapOrdered_sell_root {l : List Order} (h : heapOrdered sellPlt l) :
    ∀ o ∈ l, (getAt l 0).Price ≤ o.Price := by
  intro o ho
  obtain ⟨i, hi, rfl⟩ := List.mem_iff_getElem.mp ho
  have hr := heapOrdered_root sellPlt_ok h i hi
  rw [sellPlt_false_iff] at hr
  simp only [prAt] at hr
  rwa [getAt_eq_getElem hi] at hr

/-! ## The claims -/

/-- C1: in a matching sweep iteration on non-empty books, whenever the popped
best buy and best sell satisfy `bestBuy.Price ≥ bestSell.Price`, a trade is
emitted whose quantity is `min(bestBuy.Amount, bestSell.Amount)` and whose
price is the sell order's price, and each side retains its order decremented
by exactly that quantity (re-inserted when the residual is positive, dropped
otherwise); when `bestBuy.Price < bestSell.Price` no trade is emitted. -/
theorem C1_cross_trade (st : EngineState)
    (hb : ¬st.BuyOrders.length = 0) (hs : ¬st.SellOrders.length = 0) :
    ((heapPop buyPlt st.BuyOrders).1.Price ≥ (heapPop sellPlt st.SellOrders).1.Price →
      (matchIter st).2.1 = some
        { buyID := (heapPop buyPlt st.BuyOrders).1.ID
          sellID := (heapPop sellPlt st.SellOrders).1.ID
          price := (heapPop sellPlt st.SellOrders).1.Price
          qty := min (heapPop buyPlt st.BuyOrders).1.Amount
            (heapPop sellPlt st.SellOrders).1.Amount } ∧
      (matchIter st).1.BuyOrders =
        (if 0 < (heapPop buyPlt st.BuyOrders).1.Amount -
            min (heapPop buyPlt st.BuyOrders).1.Amount
              (heapPop sellPlt st.SellOrders).1.Amount then
          heapPush buyPlt (heapPop buyPlt st.BuyOrders).2
            { (heapPop buyPlt st.BuyOrders).1 with
              Amount := (heapPop buyPlt st.BuyOrders).1.Amount -
                min (heapPop buyPlt st.BuyOrders).1.Amount
                  (heapPop sellPlt st.SellOrders).1.Amount }
        else (heapPop buyPlt st.BuyOrders).2) ∧
      (matchIter st).1.SellOrders =
        (if 0 < (heapPop sellPlt st.SellOrders).1.Amount -
            min (heapPop buyPlt st.BuyOrders).1.Amount
              (heapPop sellPlt st.SellOrders).1.Amount then
          heapPush sellPlt (heapPop sellPlt st.SellOrders).2
            { (heapPop sellPlt st.SellOrders).1 with
              Amount := (heapPop sellPlt st.SellOrders).1.Amount -
                min (heapPop buyPlt st.BuyOrders).1.Amount
                  (heapPop sellPlt st.SellOrders).1.Amount }
        else (heapPop sellPlt st.SellOrders).2)) ∧
    ((heapPop buyPlt st.BuyOrders).1.Price < (heapPop sellPlt st.SellOrders).1.Price →
      (matchIter st).2.1 = none) := by
  constructor
  · intro hge
    rw [matchIter_cross st (heapPop buyPlt st.BuyOrders).1
      (heapPop sellPlt st.SellOrders).1 (heapPop buyPlt st.BuyOrders).2
      (heapPop sellPlt st.SellOrders).2 rfl rfl hb hs hge]
    refine ⟨?_, ?_, ?_⟩
    · dsimp only
      rw [goMin_eq_min]
      rfl
    · dsimp only
      rw [goMin_eq_min]
    · dsimp only
      rw [goMin_eq_min]
  · intro hlt
    rw [matchIter_nocross st (heapPop buyPlt st.BuyOrders).1
      (heapPop sellPlt st.SellOrders).1 (heapPop buyPlt st.BuyOrders).2
      (heapPop sellPlt st.SellOrders).2 rfl rfl hb hs (not_le.mpr hlt)]

theorem C1_cross_trade_witness :
    (¬(⟨[⟨1, "BUY", 100, 5, 0⟩], [⟨2, "SELL", 90, 3, 0⟩]⟩ :
        EngineState).BuyOrders.length = 0) ∧
    (matchIter ⟨[⟨1, "BUY", 100, 5, 0⟩], [⟨2, "SELL", 90, 3, 0⟩]⟩).2.1 =
      some { buyID := 1, sellID := 2, price := 90, qty := 3 } := by
  refine ⟨by decide, ?_⟩
  have h := C1_cross_trade ⟨[⟨1, "BUY", 100, 5, 0⟩], [⟨2, "SELL", 90, 3, 0⟩]⟩
    (by decide) (by decide)
  have h2 := (h.1 (by decide)).1
  rw [h2]
  decide

/-- C2: in a matching sweep iteration on non-empty books, if the popped best
buy and best sell do not cross, the exact popped orders are pushed back onto
their own books (each book keeping its logical multiset of orders unchanged),
no trade is emitted, and the sweep ends immediately: the whole loop returns
with an empty trade list. -/
theorem C2_nocross_ends_sweep (st : EngineState)
    (hb : ¬st.BuyOrders.length = 0) (hs : ¬st.SellOrders.length = 0)
    (hlt : (heapPop buyPlt st.BuyOrders).1.Price <
      (heapPop sellPlt st.SellOrders).1.Price) :
    matchIter st =
      ({ BuyOrders :=
           heapPush buyPlt (heapPop buyPlt st.BuyOrders).2
             (heapPop buyPlt st.BuyOrders).1
         SellOrders :=
           heapPush sellPlt (heapPop sellPlt st.SellOrders).2
             (heapPop sellPlt st.SellOrders).1 },
       none, false) ∧
    logicalMS (matchIter st).1.BuyOrders = logicalMS st.BuyOrders ∧
    logicalMS (matchIter st).1.SellOrders = logicalMS st.SellOrders ∧
    ∀ fuel, matchLoop (fuel + 1) st = some ((matchIter st).1, []) := by
  have hbne : st.BuyOrders ≠ [] := fun he => hb (by rw [he]; rfl)
  have hsne : st.SellOrders ≠ [] := fun he => hs (by rw [he]; rfl)
  have he := matchIter_nocross st (heapPop buyPlt st.BuyOrders).1
    (heapPop sellPlt st.SellOrders).1 (heapPop buyPlt st.BuyOrders).2
    (heapPop sellPlt st.SellOrders).2 rfl rfl hb hs (not_le.mpr hlt)
  refine ⟨he, ?_, ?_, ?_⟩
  · rw [he]
    exact logicalMS_pop_push buyPlt hbne
  · rw [he]
    exact logicalMS_pop_push sellPlt hsne
  · intro fuel
    rw [matchLoop, he]
    rfl

theorem C2_nocross_ends_sweep_witness :
    ((heapPop buyPlt (⟨[⟨1, "BUY", 99, 5, 0⟩], [⟨2, "SELL", 101, 5, 0⟩]⟩ :
        EngineState).BuyOrders).1.Price <
      (heapPop sellPlt (⟨[⟨1, "BUY", 99, 5, 0⟩], [⟨2, "SELL", 101, 5, 0⟩]⟩ :
        EngineState).SellOrders).1.Price) ∧
    matchLoop 1 ⟨[⟨1, "BUY", 99, 5, 0⟩], [⟨2, "SELL", 101, 5, 0⟩]⟩ =
      some ((matchIter ⟨[⟨1, "BUY", 99, 5, 0⟩], [⟨2, "SELL", 101, 5, 0⟩]⟩).1, []) := by
  refine ⟨by decide, ?_⟩
  have h := C2_nocross_ends_sweep ⟨[⟨1, "BUY", 99, 5, 0⟩], [⟨2, "SELL", 101, 5, 0⟩]⟩
    (by decide) (by decide) (by decide)
  exact h.2.2.2 0

/-- C3 counterexample: `addOrderInternal` performs no validation, so an order
with `Amount = 0` handed to the ingestion worker is placed into the buy book —
refuting, as stated, that no operation ever places a zero-amount order into a
book. -/
theorem C3_counterexample :
    (addOrderInternal ⟨[], []⟩ ⟨1, "BUY", 1, 0, 0⟩).BuyOrders =
      [⟨1, "BUY", 1, 0, 0⟩] ∧
    ((⟨1, "BUY", 1, 0, 0⟩ : Order) ∈
      (addOrderInternal ⟨[], []⟩ ⟨1, "BUY", 1, 0, 0⟩).BuyOrders) ∧
    (⟨1, "BUY", 1, 0, 0⟩ : Order).Amount = 0 := by
  exact ⟨by decide, by decide, rfl⟩

/-- C3 amended: provided every order handed to the ingestion worker has
positive amount, every order in both books has positive amount after every
operation: inserting a positive order preserves positivity, and the sweep
drops zero-residual orders and never re-inserts them.  `addOrderInternal`
itself checks nothing, so a zero-amount order reaching it lands in a book
(see the counterexample). -/
theorem C3_books_positive (st : EngineState) (h : booksPos st) :
    (∀ o : Order, 0 < o.Amount → booksPos (addOrderInternal st o)) ∧
    booksPos (matchIter st).1 ∧
    (∀ fuel st2 ts, matchLoop fuel st = some (st2, ts) → booksPos st2) :=
  ⟨fun _ ho => booksPos_addOrderInternal h ho, booksPos_matchIter h,
   fun fuel st2 ts he => booksPos_matchLoop fuel st st2 ts h he⟩

theorem C3_books_positive_witness :
    booksPos ⟨[⟨1, "BUY", 100, 5, 0⟩], [⟨2, "SELL", 90, 3, 0⟩]⟩ ∧
    booksPos (matchIter ⟨[⟨1, "BUY", 100, 5, 0⟩], [⟨2, "SELL", 90, 3, 0⟩]⟩).1 :=
  ⟨by constructor <;> (intro o ho; simp at ho; subst ho; decide),
   (C3_books_positive ⟨[⟨1, "BUY", 100, 5, 0⟩], [⟨2, "SELL", 90, 3, 0⟩]⟩
     (by constructor <;> (intro o ho; simp at ho; subst ho; decide))).2.1⟩

/-- C4: the heap-ordering invariant of both books is preserved by every
engine-observable operation — insertion, a sweep iteration, a whole sweep,
and the read-only queries (which leave the state unchanged) — and under that
invariant the root of a non-empty buy book carries the maximal price and the
root of a non-empty sell book the minimal price among all contained orders. -/
theorem C4_root_extremal (st : EngineState) (h : booksOrdered st) :
    (∀ o ∈ st.BuyOrders, o.Price ≤ (getAt st.BuyOrders 0).Price) ∧
    (∀ o ∈ st.SellOrders, (getAt st.SellOrders 0).Price ≤ o.Price) ∧
    (∀ o2 : Order, booksOrdered (addOrderInternal st o2)) ∧
    booksOrdered (matchIter st).1 ∧
    (∀ fuel st2 ts, matchLoop fuel st = some (st2, ts) → booksOrdered st2) ∧
    (GetHighestBuyOrder st).1 = st ∧ (GetHighestSellOrder st).1 = st := by
  refine ⟨heapOrdered_buy_root h.1, heapOrdered_sell_root h.2,
    fun o2 => booksOrdered_addOrderInternal h o2, booksOrdered_matchIter h,
    fun fuel st2 ts he => booksOrdered_matchLoop fuel st st2 ts h he, ?_, ?_⟩
  · rw [GetHighestBuyOrder]; split <;> rfl
  · rw [GetHighestSellOrder]; split <;> rfl

theorem C4_root_extremal_witness :
    (∀ o ∈ (⟨[⟨1, "BUY", 100, 5, 0⟩], [⟨2, "SELL", 101, 5, 0⟩]⟩ :
        EngineState).BuyOrders,
      o.Price ≤ (getAt (⟨[⟨1, "BUY", 100, 5, 0⟩],
        [⟨2, "SELL", 101, 5, 0⟩]⟩ : EngineState).BuyOrders 0).Price) ∧
    booksOrdered (matchIter ⟨[⟨1, "BUY", 100, 5, 0⟩],
      [⟨2, "SELL", 101, 5, 0⟩]⟩).1 := by
  have hOrd : booksOrdered ⟨[⟨1, "BUY", 100, 5, 0⟩], [⟨2, "SELL", 101, 5, 0⟩]⟩ := by
    constructor <;>
      (intro k hk0 hkl
       simp only [List.length_cons, List.length_nil] at hkl
       exact ((by omega : False)).elim)
  exact ⟨(C4_root_extremal _ hOrd).1, (C4_root_extremal _ hOrd).2.2.2.1⟩

/-- C5 counterexample: a malformed order — side string neither BUY nor SELL,
non-positive price, non-positive amount — passed to `AddOrder` IS enqueued
onto the ingress channel, and the ingestion worker then places it into the
sell book; nothing drops or reports it. -/
theorem C5_counterexample :
    ((⟨7, "WRONG", -1, 0, 0⟩ : Order).typ ≠ Buy ∧
     (⟨7, "WRONG", -1, 0, 0⟩ : Order).typ ≠ Sell ∧
     (⟨7, "WRONG", -1, 0, 0⟩ : Order).Price ≤ 0 ∧
     (⟨7, "WRONG", -1, 0, 0⟩ : Order).Amount ≤ 0) ∧
    AddOrder [] ⟨7, "WRONG", -1, 0, 0⟩ = [⟨7, "WRONG", -1, 0, 0⟩] ∧
    (processOrders ⟨[], []⟩ (AddOrder [] ⟨7, "WRONG", -1, 0, 0⟩)).SellOrders =
      [⟨7, "WRONG", -1, 0, 0⟩] := by
  refine ⟨⟨?_, ?_, ?_, ?_⟩, ?_, ?_⟩ <;> decide

/-- C5 amended: `AddOrder` performs no validation at all: every order passed
to it, malformed or not, is appended unchanged to the ingress queue, and the
ingestion worker inserts every received order into one of the two books, whose
combined contents gain exactly that order. -/
theorem C5_no_validation (q : List Order) (o : Order) (st : EngineState) :
    AddOrder q o = q ++ [o] ∧ o ∈ AddOrder q o ∧
    logicalMS (addOrderInternal st o).BuyOrders +
        logicalMS (addOrderInternal st o).SellOrders =
      strip o ::ₘ (logicalMS st.BuyOrders + logicalMS st.SellOrders) := by
  refine ⟨rfl, by simp [AddOrder], ?_⟩
  rw [addOrderInternal]
  split
  · dsimp only
    rw [logicalMS_heapPush, Multiset.cons_add]
  · dsimp only
    rw [logicalMS_heapPush]
    rw [Multiset.add_cons]

/-- C6: `GetHighestBuyOrder` returns none exactly when the buy book is empty
and otherwise a by-value clone of the current root — the engine state is
returned unchanged, and because the result is a value copy, later mutations of
the book cannot affect it; `GetHighestSellOrder` is symmetric. -/
theorem C6_get_highest (st : EngineState) :
    (GetHighestBuyOrder st).1 = st ∧ (GetHighestSellOrder st).1 = st ∧
    (st.BuyOrders = [] → (GetHighestBuyOrder st).2 = none) ∧
    (st.BuyOrders ≠ [] →
      (GetHighestBuyOrder st).2 = some (getAt st.BuyOrders 0)) ∧
    (st.SellOrders = [] → (GetHighestSellOrder st).2 = none) ∧
    (st.SellOrders ≠ [] →
      (GetHighestSellOrder st).2 = some (getAt st.SellOrders 0)) := by
  refine ⟨?_, ?_, ?_, ?_, ?_, ?_⟩
  · rw [GetHighestBuyOrder]; split <;> rfl
  · rw [GetHighestSellOrder]; split <;> rfl
  · intro he; simp [GetHighestBuyOrder, he]
  · intro hne; simp [GetHighestBuyOrder, List.length_pos.mpr hne]
  · intro he; simp [GetHighestSellOrder, he]
  · intro hne; simp [GetHighestSellOrder, List.length_pos.mpr hne]

theorem C6_get_highest_witness :
    (GetHighestBuyOrder ⟨[⟨1, "BUY", 100, 5, 0⟩], []⟩).2 =
      some (getAt [⟨1, "BUY", 100, 5, 0⟩] 0) ∧
    (GetHighestSellOrder ⟨[⟨1, "BUY", 100, 5, 0⟩], []⟩).2 = none :=
  ⟨(C6_get_highest ⟨[⟨1, "BUY", 100, 5, 0⟩], []⟩).2.2.2.1 (by decide),
   (C6_get_highest ⟨[⟨1, "BUY", 100, 5, 0⟩], []⟩).2.2.2.2.1 rfl⟩

/-- C7: every order in a book carries `Index` equal to its array position;
the property is maintained by `Swap`, by `heap.Push` and by `heap.Pop`, and
the order removed by `heap.Pop` gets the sentinel `Index = -1` while the
remaining orders keep their true positions. -/
theorem C7_heap_index (plt : ℚ → ℚ → Bool) (l : List Order) (o : Order)
    (i j : Nat) (h : wellIndexed l) :
    wellIndexed (heapPush plt l o) ∧
    (i < l.length → j < l.length → wellIndexed (swapIdx l i j)) ∧
    (l ≠ [] → (heapPop plt l).1.Index = -1 ∧ wellIndexed (heapPop plt l).2) :=
  ⟨wellIndexed_heapPush plt o h,
   fun hi hj => wellIndexed_swapIdx hi hj h,
   fun hne => ⟨heapPop_fst_index plt l, wellIndexed_heapPop_snd plt hne h⟩⟩

theorem C7_heap_index_witness :
    wellIndexed (heapPush buyPlt [⟨1, "BUY", 5, 1, 0⟩] ⟨2, "BUY", 7, 1, 0⟩) ∧
    (heapPop buyPlt [⟨1, "BUY", 5, 1, 0⟩]).1.Index = -1 := by
  have hWI : wellIndexed [(⟨1, "BUY", 5, 1, 0⟩ : Order)] := by
    intro k hk
    simp only [List.length_cons, List.length_nil] at hk
    have hk0 : k = 0 := by omega
    subst hk0
    decide
  exact ⟨(C7_heap_index buyPlt _ ⟨2, "BUY", 7, 1, 0⟩ 0 0 hWI).1,
    ((C7_heap_index buyPlt _ ⟨2, "BUY", 7, 1, 0⟩ 0 0 hWI).2.2 (by decide)).1⟩

/-- C8: conservation over a whole sweep: the total amount removed from the buy
book equals the total amount removed from the sell book — both equal the total
quantity of the emitted trades — and, for each order identifier, the residual
amount left in the book plus the quantity traded under that identifier equals
the amount originally resident. -/
theorem C8_conservation {st st2 : EngineState} {ts : List Trade}
    (h : MatchOrders st = some (st2, ts)) :
    (msAmtSum (logicalMS st.BuyOrders) - msAmtSum (logicalMS st2.BuyOrders) =
      tsQty ts) ∧
    (msAmtSum (logicalMS st.SellOrders) - msAmtSum (logicalMS st2.SellOrders) =
      tsQty ts) ∧
    (∀ i, msAmtSumID i (logicalMS st.BuyOrders) =
      msAmtSumID i (logicalMS st2.BuyOrders) + tsQtyBuyID i ts) ∧
    (∀ i, msAmtSumID i (logicalMS st.SellOrders) =
      msAmtSumID i (logicalMS st2.SellOrders) + tsQtySellID i ts) := by
  obtain ⟨h1, h2, h3, h4⟩ := matchLoop_conservation _ st st2 ts h
  exact ⟨by omega, by omega, h3, h4⟩

theorem C8_conservation_witness :
    MatchOrders ⟨[⟨1, "BUY", 100, 5, 0⟩], [⟨2, "SELL", 90, 3, 0⟩]⟩ =
      some (⟨[⟨1, "BUY", 100, 2, 0⟩], []⟩, [⟨1, 2, 90, 3⟩]) ∧
    msAmtSum (logicalMS [⟨1, "BUY", 100, 5, 0⟩]) -
        msAmtSum (logicalMS [⟨1, "BUY", 100, 2, 0⟩]) =
      tsQty [⟨1, 2, 90, 3⟩] :=
  ⟨by decide, (@C8_conservation
    ⟨[⟨1, "BUY", 100, 5, 0⟩], [⟨2, "SELL", 90, 3, 0⟩]⟩
    ⟨[⟨1, "BUY", 100, 2, 0⟩], []⟩
    [⟨1, 2, 90, 3⟩] (by decide)).1⟩

/-- C9: a single sweep terminates on any pair of books of positive-amount
orders: every iteration that emits a trade drops at least one order — the side
whose amount attained the traded minimum is never re-inserted — so the books
shrink, and every non-trading iteration exits the loop; fuel one more than the
number of resident orders always completes the sweep. -/
theorem C9_sweep_terminates (st : EngineState) (hpos : booksPos st) :
    ((matchIter st).2.2 = true → totalLen (matchIter st).1 < totalLen st) ∧
    (∃ st2 ts, MatchOrders st = some (st2, ts)) := by
  refine ⟨matchIter_continue st, ?_⟩
  obtain ⟨⟨st2, ts⟩, hr⟩ := matchLoop_terminates
    (st.BuyOrders.length + st.SellOrders.length + 1) st (by rw [totalLen]; omega)
  exact ⟨st2, ts, hr⟩

theorem C9_sweep_terminates_witness :
    booksPos ⟨[⟨1, "BUY", 100, 5, 0⟩], [⟨2, "SELL", 90, 3, 0⟩]⟩ ∧
    ∃ st2 ts, MatchOrders ⟨[⟨1, "BUY", 100, 5, 0⟩], [⟨2, "SELL", 90, 3, 0⟩]⟩ =
      some (st2, ts) :=
  ⟨by constructor <;> (intro o ho; simp at ho; subst ho; decide),
   (C9_sweep_terminates ⟨[⟨1, "BUY", 100, 5, 0⟩], [⟨2, "SELL", 90, 3, 0⟩]⟩
     (by constructor <;> (intro o ho; simp at ho; subst ho; decide))).2⟩

/-- C10: the ingestion worker routes on `Type = "BUY"` only: every order whose
type is not exactly `"BUY"` — `"SELL"`, but also any malformed or empty type
string — is inserted into the sell book. -/
theorem C10_nonbuy_routes_to_sell (st : EngineState) (o : Order)
    (h : o.typ ≠ "BUY") :
    addOrderInternal st o =
      { st with SellOrders := heapPush sellPlt st.SellOrders o } := by
  rw [addOrderInternal, if_neg (show ¬o.typ = Buy from fun he => h he)]

theorem C10_nonbuy_routes_to_sell_witness :
    (⟨3, "LIMIT", 1, 1, 0⟩ : Order).typ ≠ "BUY" ∧
    addOrderInternal ⟨[], []⟩ ⟨3, "LIMIT", 1, 1, 0⟩ =
      { BuyOrders := [],
        SellOrders := heapPush sellPlt [] ⟨3, "LIMIT", 1, 1, 0⟩ } :=
  ⟨by decide, C10_nonbuy_routes_to_sell ⟨[], []⟩ ⟨3, "LIMIT", 1, 1, 0⟩ (by decide)⟩

end MatchEngine
